import Mathlib

/-!
Verification of the EVM-mcp gateway core against its specification.

The development shallowly embeds the credential vault
(`src/mcp/wallet_storage.rs`), the AEAD sealing primitive
(`src/mcp/encryption.rs`), the per-sender nonce reservation table
(`src/blockchain/nonce_manager.rs`), the atomic-save routine
(`save_wallet_storage`) and the `transfer_from_wallet` dispatch path
(`src/mcp/handler.rs`, `src/blockchain/evm_client.rs`).

Rust strings are modelled as `List Char`, byte strings as `List Nat`,
`HashMap` as an association list (iteration order is not observable to
clients), and 256-bit integers as `Nat` reduced `% 2 ^ 256` where the
source performs `U256` arithmetic.  External crates (sha2, argon2,
aes-gcm, base64, serde_json, the filesystem) are modelled as explicit
parameters or as emitted operation traces, so every repository-side
decision remains executable.
-/

namespace EvmMcp

/-- Rust `&str` / `String`, modelled as a list of characters. -/
abbrev Str := List Char

/-- A byte string (`Vec<u8>`), each entry a byte value. -/
abbrev Bytes := List Nat

/-- Value of a single hex digit, mirroring the `hex` crate (digits
`0-9`, `a-f` and `A-F` accepted). -/
def hexDigitVal (c : Char) : Option Nat :=
  if '0' ≤ c ∧ c ≤ '9' then some (c.toNat - '0'.toNat)
  else if 'a' ≤ c ∧ c ≤ 'f' then some (c.toNat - 'a'.toNat + 10)
  else if 'A' ≤ c ∧ c ≤ 'F' then some (c.toNat - 'A'.toNat + 10)
  else none

/-- `hex::decode`: succeeds exactly on an even-length string of hex
digits, producing one byte per digit pair. -/
def hexDecode : Str → Option Bytes
  | [] => some []
  | [_] => none
  | hi :: lo :: rest =>
    match hexDigitVal hi, hexDigitVal lo, hexDecode rest with
    | some h, some l, some bs => some ((h * 16 + l) :: bs)
    | _, _, _ => none

/-- Rust `str::trim_start_matches("0x")`: strips every repetition of the
leading `"0x"`. -/
def trimStartMatches0x : Str → Str
  | '0' :: 'x' :: rest => trimStartMatches0x rest
  | s => s

/-- Rust `str::strip_prefix("0x").unwrap_or(src)`: strips a single
leading `"0x"` if present (used by the ethers hex parsers). -/
def strip0x (s : Str) : Str :=
  match s with
  | '0' :: 'x' :: rest => rest
  | _ => s

/-- Rust `str::to_lowercase` restricted to the ASCII range that addresses
use. -/
def strToLower (s : Str) : Str := s.map Char.toLower

/-- Rust `str::trim().is_empty()`: true when the string is all
whitespace. -/
def isBlank (s : Str) : Bool := s.all Char.isWhitespace

/-- Association-list lookup standing in for `HashMap::get`. -/
def alistLookup {α : Type} (l : List (Str × α)) (k : Str) : Option α :=
  (l.find? (fun p => p.1 == k)).map (fun p => p.2)

/-- `HashMap::contains_key`. -/
def alistContains {α : Type} (l : List (Str × α)) (k : Str) : Bool :=
  (alistLookup l k).isSome

/-- `HashMap::insert`: replaces the binding when the key is present,
otherwise adds one. -/
def alistInsert {α : Type} (l : List (Str × α)) (k : Str) (v : α) :
    List (Str × α) :=
  if alistContains l k then
    l.map (fun p => if p.1 == k then (k, v) else p)
  else
    l ++ [(k, v)]

/-- `HashMap::remove`: drops the (unique) binding for the key. -/
def alistErase {α : Type} (l : List (Str × α)) (k : Str) : List (Str × α) :=
  l.eraseP (fun p => p.1 == k)

/-- `Except.isOk`, kept local so results stay evaluable. -/
def exceptIsOk {ε α : Type} : Except ε α → Bool
  | .ok _ => true
  | .error _ => false

/-- A stored EVM wallet record (`StoredWallet` in
`src/mcp/wallet_storage.rs`).  `created_at` wall-clock times are
modelled as a `Nat` supplied by the caller. -/
structure StoredWallet where
  wallet_name : Str
  encrypted_private_key : Str
  public_address : Str
  created_at : Nat
deriving DecidableEq

/-- The in-memory vault (`WalletStorage`).  The `wallets` map is an
association list with unique keys. -/
structure WalletStorage where
  wallets : List (Str × StoredWallet)
  master_password_hash : Str
  storage_path : Str
  created_at : Nat
  updated_at : Nat
deriving DecidableEq

/-- The parsed content of the on-disk `wallets.json` document: the
fields of `WalletStorage` that `serde_json` persists and that a reload
observes. -/
structure DiskDoc where
  wallets : List (Str × StoredWallet)
  master_password_hash : Str
deriving DecidableEq

/-- `serde_json` serialization of the vault, at the granularity a
reloading reader observes. -/
def serializeStorage (s : WalletStorage) : DiskDoc :=
  ⟨s.wallets, s.master_password_hash⟩

/-- `WalletStorage::save` → `save_wallet_storage`: refreshes
`updated_at` and atomically replaces the on-disk document. -/
def storageSave (now : Nat) (s : WalletStorage) : WalletStorage × DiskDoc :=
  let s' := { s with updated_at := now }
  (s', serializeStorage s')

/-- `WalletStorage::verify_master_password`.  SHA-256 is an external
crate; it enters as the explicit `hash` parameter. -/
def verify_master_password (hash : Str → Str) (s : WalletStorage)
    (master_password : Str) : Bool :=
  (!s.master_password_hash.isEmpty) &&
    (s.master_password_hash == hash master_password)

/-- `WalletStorage::encrypt_private_key`: the source returns the key
unchanged ("for now, we'll just return the key as-is"). -/
def storage_encrypt_private_key (_s : WalletStorage) (private_key : Str)
    (_master_password : Str) : Except Str Str :=
  .ok private_key

/-- `WalletStorage::decrypt_private_key`: verifies the master password,
then returns the stored string unchanged. -/
def storage_decrypt_private_key (hash : Str → Str) (s : WalletStorage)
    (encrypted_key : Str) (master_password : Str) : Except Str Str :=
  if verify_master_password hash s master_password = false then
    .error ("Invalid master password".toList)
  else
    .ok encrypted_key

/-- `WalletStorage::add_wallet`.  Validation and persistence follow the
source line by line; on success the updated vault is saved, so the new
on-disk document is returned alongside the new in-memory state. -/
def add_wallet (hash : Str → Str) (now : Nat) (s : WalletStorage)
    (wallet_name : Str) (private_key : Str) (public_address : Str)
    (master_password : Str) : Except Str (WalletStorage × DiskDoc) :=
  if (!s.master_password_hash.isEmpty) &&
      (!verify_master_password hash s master_password) then
    .error ("Invalid master password".toList)
  else if isBlank wallet_name then
    .error ("Wallet name cannot be empty".toList)
  else if alistContains s.wallets wallet_name then
    .error ("Wallet with name '".toList ++ wallet_name ++
      "' already exists".toList)
  else
    let pk := trimStartMatches0x private_key
    match hexDecode pk with
    | none => .error ("Invalid private key format".toList)
    | some _ =>
      if !(("0x".toList.isPrefixOf public_address) &&
          (public_address.length == 42)) then
        .error ("Invalid Ethereum address format".toList)
      else
        match storage_encrypt_private_key s pk master_password with
        | .error e => .error e
        | .ok encrypted_key =>
          let w : StoredWallet :=
            ⟨wallet_name, encrypted_key, strToLower public_address, now⟩
          let s' := { s with
            wallets := alistInsert s.wallets wallet_name w,
            updated_at := now }
          .ok (storageSave now s')

/-- `WalletStorage::get_private_key`: optional master-password gate,
record lookup, then decrypt. -/
def get_private_key (hash : Str → Str) (s : WalletStorage)
    (wallet_name : Str) (master_password : Str) : Except Str Str :=
  if (!s.master_password_hash.isEmpty) &&
      (!verify_master_password hash s master_password) then
    .error ("Invalid master password".toList)
  else
    match alistLookup s.wallets wallet_name with
    | none => .error ("Wallet '".toList ++ wallet_name ++
        "' not found".toList)
    | some w =>
      storage_decrypt_private_key hash s w.encrypted_private_key
        master_password

/-- `WalletStorage::remove_wallet`.  The source contains no `save()`
call, so the on-disk document passes through unchanged; the disk state
is threaded explicitly to make that observable. -/
def remove_wallet (hash : Str → Str) (now : Nat) (s : WalletStorage)
    (disk : DiskDoc) (wallet_name : Str) (master_password : Str) :
    Except Str (Bool × WalletStorage × DiskDoc) :=
  if verify_master_password hash s master_password = false then
    .error ("Invalid master password".toList)
  else if alistContains s.wallets wallet_name then
    .ok (true,
      { s with wallets := alistErase s.wallets wallet_name,
               updated_at := now }, disk)
  else
    .ok (false, s, disk)

/-! ### Nonce reservation table (`src/blockchain/nonce_manager.rs`) -/

/-- `U256` arithmetic width: values live below `2 ^ 256`. -/
def U256LIMIT : Nat := 2 ^ 256

/-- `NonceManager::get_next_nonce` for one sender address.  `state` is
the cached `next_nonce` of the per-address entry (created as `None` on
first use); `fetch` models the `eth_getTransactionCount` round-trip,
failing on transport errors or a malformed response.  Returns the RPC
result together with the per-address cached state after the call; on a
failed cold-start fetch the `?` operator propagates the error before
the assignment to `next_nonce`, so the cache stays `none`. -/
def get_next_nonce (state : Option Nat) (fetch : Except Str Nat) :
    Except Str Nat × Option Nat :=
  match state with
  | some nonce => (.ok nonce, some ((nonce + 1) % U256LIMIT))
  | none =>
    match fetch with
    | .error e => (.error e, none)
    | .ok n0 => (.ok n0, some ((n0 + 1) % U256LIMIT))

/-- `k` consecutive reservations for one sender, every cold-start fetch
answered by the node with `n0`; collects the returned nonces. -/
def reserveRun (n0 : Nat) : Nat → Option Nat → List Nat
  | 0, _ => []
  | k + 1, st =>
    match get_next_nonce st (.ok n0) with
    | (.ok n, st') => n :: reserveRun n0 k st'
    | (.error _, _) => []

/-! ### Atomic save protocol (`save_wallet_storage`) -/

/-- A filesystem operation emitted by the save routine. -/
inductive FsOp where
  | write (path : Str) (content : DiskDoc)
  | fsync (path : Str)
  | rename (src dst : Str)
  | copy (src dst : Str)
  | removeFile (path : Str)
deriving DecidableEq

/-- Index of the last occurrence of `c` in `s`, if any. -/
def lastIdxOf (c : Char) (s : Str) : Option Nat :=
  (List.range s.length).foldl
    (fun acc i => if s.get? i = some c then some i else acc) none

/-- Rust `Path::with_extension(ext)`, modelled from the std
documentation: the extension of the file name (the part after its last
dot, when the stem before that dot is non-empty) is replaced by `ext`;
a file name without an extension gets `.ext` appended. -/
def withExtension (p : Str) (ext : Str) : Str :=
  let fileStart := match lastIdxOf '/' p with
    | some i => i + 1
    | none => 0
  let fname := p.drop fileStart
  let dir := p.take fileStart
  match lastIdxOf '.' fname with
  | some i =>
    if i = 0 then dir ++ fname ++ '.' :: ext
    else dir ++ fname.take i ++ '.' :: ext
  | none => dir ++ fname ++ '.' :: ext

/-- `save_wallet_storage(file_path, storage)` as the sequence of
filesystem operations it performs: write the serialized document to
`file_path.with_extension("tmp")`, then rename it over `file_path`;
when the rename fails (`renameFails`), fall back to copy plus
remove.  The source performs no fsync. -/
def save_wallet_storage (file_path : Str) (doc : DiskDoc)
    (renameFails : Bool) : List FsOp :=
  let temp_path := withExtension file_path ("tmp".toList)
  FsOp.write temp_path doc ::
    (if renameFails then
      [FsOp.copy temp_path file_path, FsOp.removeFile temp_path]
    else
      [FsOp.rename temp_path file_path])

/-- Modelled from the spec: the write protocol §4.2/§6 demands
"serialize → write to `<path>.tmp` → fsync → rename over `<path>`",
with the temp file a sibling named by appending `.tmp`. -/
def specSaveProtocol (file_path : Str) (doc : DiskDoc) : List FsOp :=
  let temp_path := file_path ++ ".tmp".toList
  [FsOp.write temp_path doc, FsOp.fsync temp_path,
    FsOp.rename temp_path file_path]

/-- A flat filesystem: named files and their parsed contents. -/
def FileSys := List (Str × DiskDoc)

/-- Effect of one operation on the filesystem (crash-free semantics;
`fsync` only affects durability, not visible contents). -/
def applyFsOp (fs : FileSys) : FsOp → FileSys
  | .write p c => alistInsert fs p c
  | .fsync _ => fs
  | .rename src dst =>
    match alistLookup fs src with
    | some c => alistInsert (alistErase fs src) dst c
    | none => fs
  | .copy src dst =>
    match alistLookup fs src with
    | some c => alistInsert fs dst c
    | none => fs
  | .removeFile p => alistErase fs p

/-- All filesystem states reached while running a trace, the initial
one included. -/
def fsStates (fs : FileSys) : List FsOp → List FileSys
  | [] => [fs]
  | op :: ops => fs :: fsStates (applyFsOp fs op) ops

/-! ### `transfer_from_wallet` dispatch path (`handler.rs` +
`EvmClient::send_transaction`) -/

/-- Dispatcher error surface: JSON-RPC `INVALID_PARAMS` versus
`INTERNAL_ERROR` responses. -/
inductive HandlerErr where
  | invalidParams (msg : Str)
  | internalError (msg : Str)
deriving DecidableEq

instance {ε α : Type} [DecidableEq ε] [DecidableEq α] :
    DecidableEq (Except ε α) := fun
  | .ok a, .ok b =>
    if h : a = b then .isTrue (by rw [h])
    else .isFalse (by intro he; cases he; exact h rfl)
  | .ok _, .error _ => .isFalse (by intro h; cases h)
  | .error _, .ok _ => .isFalse (by intro h; cases h)
  | .error e, .error f =>
    if h : e = f then .isTrue (by rw [h])
    else .isFalse (by intro he; cases he; exact h rfl)

/-- Outcome of the dispatch: the response plus whether
`WalletStorage::get_private_key` (the vault unlock, which hands out the
decrypted key) was invoked while serving the request. -/
structure TransferOutcome where
  result : Except HandlerErr Str
  unlockInvoked : Bool
deriving DecidableEq

/-- `ethers Address::from_str` (H160): an optional single `0x` prefix
followed by exactly 40 hex digits. -/
def validEthAddress (s : Str) : Bool :=
  let t := strip0x s
  (t.length == 40) && t.all (fun c => (hexDigitVal c).isSome)

/-- Digits-to-value helper for decimal parsing. -/
def decValue (s : Str) : Nat :=
  s.foldl (fun acc c => acc * 10 + (c.toNat - '0'.toNat)) 0

/-- `U256::from_dec_str`: non-empty, all decimal digits, below
`2 ^ 256`. -/
def validDecU256 (s : Str) : Bool :=
  (!s.isEmpty) && s.all Char.isDigit && decide (decValue s < U256LIMIT)

/-- Order of the secp256k1 group, bounding valid signing keys. -/
def secpOrder : Nat :=
  115792089237316195423570985008687907852837564279074904382605163141518161494337

/-- Big-endian bytes to value. -/
def beNat (bs : Bytes) : Nat := bs.foldl (fun acc b => acc * 256 + b) 0

/-- `LocalWallet::from_str`: optional single `0x` prefix, 32 bytes of
hex, and a scalar in `[1, secpOrder)` (k256 `SigningKey::from_bytes`). -/
def validLocalWallet (s : Str) : Bool :=
  match hexDecode (strip0x s) with
  | some bs =>
    (bs.length == 32) && decide (0 < beNat bs) &&
      decide (beNat bs < secpOrder)
  | none => false

/-- The `transfer_from_wallet` arm of `handle_tool_call`, for a request
whose five required arguments are present.  The source fetches the
decrypted private key first (mapping failures to `INTERNAL_ERROR`),
then parses `to_address` and `amount` (`INVALID_PARAMS`), then calls
`EvmClient::send_transaction`, which parses the key and looks up the
chain's provider (failures become `INTERNAL_ERROR`); the network
broadcast itself is out of scope and is modelled as success carrying
the resolved RPC URL. -/
def transfer_from_wallet (hash : Str → Str) (providers : List (Str × Str))
    (s : WalletStorage) (wallet_name chain_id to_address amount
    master_password : Str) : TransferOutcome :=
  match get_private_key hash s wallet_name master_password with
  | .error e => ⟨.error (.internalError e), true⟩
  | .ok private_key =>
    if validEthAddress to_address = false then
      ⟨.error (.invalidParams ("Invalid 'to_address'".toList)), true⟩
    else if validDecU256 amount = false then
      ⟨.error (.invalidParams ("Invalid 'amount'".toList)), true⟩
    else if validLocalWallet private_key = false then
      ⟨.error (.internalError ("Invalid private key".toList)), true⟩
    else
      match alistLookup providers chain_id with
      | none =>
        ⟨.error (.internalError ("No provider available for chain: ".toList
          ++ chain_id)), true⟩
      | some url => ⟨.ok url, true⟩

/-! ### AEAD sealing primitive (`src/mcp/encryption.rs`)

The cryptographic collaborators (argon2, aes-gcm, base64, UTF-8 and
`SaltString` parsing) are external crates; they enter as the fields of
`CryptoPrim`, and the repository's envelope plumbing is proved correct
for every instantiation satisfying the crates' documented contracts. -/

/-- The external primitives `encryption.rs` composes.
`kdf` is `Argon2::hash_password` (password, salt string → raw hash
bytes, `None` on an argon2 error); `aeadEncrypt`/`aeadDecrypt` are
AES-256-GCM with attached tag; `b64Encode`/`b64Decode` are
`STANDARD_NO_PAD`; `utf8Encode`/`utf8Decode` are `str::as_bytes` /
`String::from_utf8`; `saltFromB64` is `SaltString::from_b64`, giving
back the salt's string form when it parses. -/
structure CryptoPrim where
  kdf : Str → Str → Option Bytes
  aeadEncrypt : Bytes → Bytes → Bytes → Bytes
  aeadDecrypt : Bytes → Bytes → Bytes → Option Bytes
  b64Encode : Bytes → Str
  b64Decode : Str → Option Bytes
  utf8Encode : Str → Bytes
  utf8Decode : Bytes → Option Str
  saltFromB64 : Str → Option Str

/-- `EncryptionKey::encrypt`: encrypt the plaintext's bytes under the
derived key with the fresh 96-bit nonce, returning
`nonce ++ ciphertext`. -/
def encryptionKeyEncrypt (prim : CryptoPrim) (key : Bytes) (nonce : Bytes)
    (plaintext : Str) : Bytes :=
  nonce ++ prim.aeadEncrypt key nonce (prim.utf8Encode plaintext)

/-- `EncryptionKey::decrypt`: reject inputs shorter than the 12-byte
nonce, split nonce from ciphertext, decrypt, decode UTF-8. -/
def encryptionKeyDecrypt (prim : CryptoPrim) (key : Bytes)
    (encrypted_data : Bytes) : Except Str Str :=
  if encrypted_data.length < 12 then
    .error ("Invalid encrypted data: too short to contain a nonce".toList)
  else
    match prim.aeadDecrypt key (encrypted_data.take 12)
        (encrypted_data.drop 12) with
    | none => .error ("Decryption failed".toList)
    | some decrypted_bytes =>
      match prim.utf8Decode decrypted_bytes with
      | none => .error ("Failed to decode decrypted bytes to UTF-8".toList)
      | some s => .ok s

/-- `encryption.rs::encrypt_private_key`: generate a fresh salt and
nonce (passed in explicitly as the randomness), derive the key, seal,
and emit `base64(salt) ++ "." ++ base64(nonce ++ ciphertext)`. -/
def encryption_encrypt_private_key (prim : CryptoPrim) (salt : Str)
    (nonce : Bytes) (private_key : Str) (master_password : Str) :
    Except Str Str :=
  match prim.kdf master_password salt with
  | none => .error ("Argon2 key derivation failed".toList)
  | some key =>
    let encrypted_payload := encryptionKeyEncrypt prim key nonce private_key
    .ok (prim.b64Encode (prim.utf8Encode salt) ++
      '.' :: prim.b64Encode encrypted_payload)

/-- Extends the first part of a split with a leading character. -/
def consPart (c : Char) : List Str → List Str
  | [] => [[c]]
  | p :: ps => (c :: p) :: ps

/-- Rust `str::split('.')` collected to a `Vec`: `n` dots yield `n + 1`
(possibly empty) parts. -/
def splitOnDot : Str → List Str
  | [] => [[]]
  | c :: rest =>
    if c = '.' then [] :: splitOnDot rest
    else consPart c (splitOnDot rest)

/-- `encryption.rs::decrypt_private_key`: parse the two-part envelope,
recover the salt, re-derive the key, and open the payload. -/
def encryption_decrypt_private_key (prim : CryptoPrim)
    (encrypted_string : Str) (master_password : Str) : Except Str Str :=
  match splitOnDot encrypted_string with
  | [salt_b64, payload_b64] =>
    match prim.b64Decode salt_b64 with
    | none => .error ("base64 decode failed".toList)
    | some salt_bytes =>
      match prim.utf8Decode salt_bytes with
      | none => .error ("invalid UTF-8 in salt".toList)
      | some salt_str =>
        match prim.saltFromB64 salt_str with
        | none => .error ("Invalid salt format".toList)
        | some salt =>
          match prim.b64Decode payload_b64 with
          | none => .error ("base64 decode failed".toList)
          | some encrypted_payload =>
            match prim.kdf master_password salt with
            | none => .error ("Argon2 key derivation failed".toList)
            | some key => encryptionKeyDecrypt prim key encrypted_payload
  | _ => .error ("Invalid encrypted string format".toList)

/-! ### Concrete fixtures

`exHash` stands in for SHA-256 on concrete inputs; it is injective, as
the claims' idealization of the verifier hash requires. -/

/-- Stand-in for SHA-256 in concrete evaluations. -/
def exHash : Str → Str := fun s => s

/-- A master passphrase. -/
def exPw : Str := "password123".toList

/-- A raw 32-byte private key as 64 hex characters. -/
def exRawKey : Str := List.replicate 64 '1'

/-- The same key with a `0x` prefix, as a caller would supply it. -/
def exKeyHex : Str := '0' :: 'x' :: exRawKey

/-- A 20-byte address in `0x`-prefixed lowercase hex. -/
def exAddr : Str := '0' :: 'x' :: List.replicate 40 'a'

/-- A stored record holding `exRawKey` for wallet name `w`. -/
def exWallet : StoredWallet := ⟨['w'], exRawKey, exAddr, 0⟩

/-- A vault containing `exWallet`, master verifier set to
`exHash exPw`. -/
def exVault : WalletStorage :=
  ⟨[(['w'], exWallet)], exHash exPw, ['p'], 0, 0⟩

/-- The on-disk document matching `exVault`. -/
def exDisk : DiskDoc := serializeStorage exVault

/-- An empty vault whose master verifier is set. -/
def exEmptyVault : WalletStorage := ⟨[], exHash exPw, ['p'], 0, 0⟩

/-- A provider map knowing only chain `1`. -/
def exProviders : List (Str × Str) :=
  [(['1'], "http://node".toList)]

/-! ### Claim theorems -/

/-- Claim C1 (code bug): `add_wallet` stores the private key verbatim.
Adding the key `0x11…1` under any vault state leaves
`encrypted_private_key` equal to the plaintext hex key itself — the
AEAD envelope of `encryption.rs` is never produced, contradicting the
module's own documentation ("Private keys are encrypted with a master
password before being stored on disk", field format `salt.payload`). -/
theorem c1_encrypted_key_is_plaintext :
    (add_wallet exHash 5 exEmptyVault "alice".toList exKeyHex exAddr
        exPw).map
      (fun r => (alistLookup r.1.wallets "alice".toList).map
        (fun w => w.encrypted_private_key)) =
      .ok (some exRawKey) ∧
    trimStartMatches0x exKeyHex = exRawKey := by
  constructor
  · rfl
  · rfl

/-- Claim C2 (counterexample): a successful `remove_wallet` deletes the
record from the in-memory map but performs no save; the on-disk
document returned by the operation is the input one, still containing
the removed wallet, so a subsequent load does not observe the
removal. -/
theorem c2_remove_does_not_persist_cex :
    remove_wallet exHash 1 exVault exDisk ['w'] exPw =
      .ok (true, { exVault with wallets := [], updated_at := 1 },
        exDisk) ∧
    alistContains exDisk.wallets ['w'] = true := by
  constructor
  · rfl
  · rfl

/-- Claim C3 (counterexample): for a stored wallet and the correct
passphrase, a `transfer_from_wallet` request with a wrong-length `to`
address, and one with an unknown chain id, both fail only after
`get_private_key` — the vault unlock — has already been invoked; the
unknown-chain failure is moreover surfaced as `INTERNAL_ERROR`, not as
an invalid-parameters response. -/
theorem c3_unlock_invoked_cex :
    transfer_from_wallet exHash exProviders exVault ['w'] ['1']
        "0x1234".toList ['1'] exPw =
      ⟨.error (.invalidParams "Invalid 'to_address'".toList), true⟩ ∧
    transfer_from_wallet exHash exProviders exVault ['w'] ['2']
        exAddr ['1'] exPw =
      ⟨.error (.internalError ("No provider available for chain: 2".toList)),
        true⟩ := by
  constructor
  · rfl
  · rfl

/-- Claim C8 (counterexample): saving to `wallets.json` writes the
document to `wallets.tmp` — `with_extension("tmp")` replaces the
`.json` extension rather than appending — and renames it, with no
fsync step anywhere in the trace; the emitted operations differ from
the spec's write–fsync–rename protocol. -/
theorem c8_no_fsync_cex :
    save_wallet_storage "wallets.json".toList exDisk false =
      [FsOp.write "wallets.tmp".toList exDisk,
        FsOp.rename "wallets.tmp".toList "wallets.json".toList] ∧
    (save_wallet_storage "wallets.json".toList exDisk false).all
      (fun op => match op with | .fsync _ => false | _ => true) = true ∧
    save_wallet_storage "wallets.json".toList exDisk false ≠
      specSaveProtocol "wallets.json".toList exDisk := by
  refine ⟨by rfl, by rfl, by decide⟩

/-- Claim C9: when the per-sender cache is cold and the node fetch
fails, `get_next_nonce` surfaces the error and the cached next nonce
stays `none`; the following reservation for that sender performs the
cold-start fetch again and serves its result. -/
theorem c9_cold_fetch_failure : ∀ (e : Str) (n0 : Nat),
    get_next_nonce none (.error e) = (.error e, none) ∧
    get_next_nonce none (.ok n0) = (.ok n0, some ((n0 + 1) % U256LIMIT)) := by
  intro e n0
  exact ⟨rfl, rfl⟩

/-- Unfolding step: a reservation served from the cache returns the
cached value and caches its successor. -/
theorem reserveRun_succ_some (n0 k n : Nat) :
    reserveRun n0 (k + 1) (some n) =
      n :: reserveRun n0 k (some ((n + 1) % U256LIMIT)) := rfl

/-- Unfolding step: the first reservation from a cold cache serves the
fetched value. -/
theorem reserveRun_succ_none (n0 k : Nat) :
    reserveRun n0 (k + 1) none =
      n0 :: reserveRun n0 k (some ((n0 + 1) % U256LIMIT)) := rfl

/-- A warm cache at `n` hands out the contiguous run starting at `n`
while the counter stays below the `U256` width. -/
theorem reserveRun_warm (n0 : Nat) : ∀ (k n : Nat),
    n + k ≤ U256LIMIT → reserveRun n0 k (some n) = List.range' n k := by
  intro k
  induction k with
  | zero => intro n _; rfl
  | succ k ih =>
    intro n h
    rw [reserveRun_succ_some]
    cases k with
    | zero => rfl
    | succ k' =>
      have h1 : n + 1 < U256LIMIT :=
        lt_of_lt_of_le (by omega : n + 1 < n + (k' + 1 + 1)) h
      rw [Nat.mod_eq_of_lt h1, ih (n + 1) (by omega)]
      exact (List.range'_succ _ _ _).symm

/-- Claim C4: `get_next_nonce` returns the cached next nonce when one
is present and the freshly fetched account sequence number on a cold
cache, in both cases storing the successor (as a `U256`); consequently
a run of `k` reservations from a cold start, first fetch answering
`n0`, returns exactly the contiguous values `n0, n0+1, …, n0+k-1`. -/
theorem c4_nonce_reservation_contiguous :
    (∀ (n : Nat) (f : Except Str Nat),
      get_next_nonce (some n) f = (.ok n, some ((n + 1) % U256LIMIT))) ∧
    (∀ n0 : Nat, get_next_nonce none (.ok n0) =
      (.ok n0, some ((n0 + 1) % U256LIMIT))) ∧
    (∀ (n0 k : Nat), n0 + k ≤ U256LIMIT →
      reserveRun n0 k none = List.range' n0 k) := by
  refine ⟨fun n f => rfl, fun n0 => rfl, fun n0 k h => ?_⟩
  cases k with
  | zero => rfl
  | succ k' =>
    rw [reserveRun_succ_none]
    cases k' with
    | zero => rfl
    | succ k'' =>
      have h1 : n0 + 1 < U256LIMIT :=
        lt_of_lt_of_le (by omega : n0 + 1 < n0 + (k'' + 1 + 1)) h
      rw [Nat.mod_eq_of_lt h1, reserveRun_warm n0 (k'' + 1) (n0 + 1)
        (by omega)]
      exact (List.range'_succ _ _ _).symm

/-- Witness for C4: three reservations from a cold start with the node
reporting sequence number 7 return `7, 8, 9`. -/
theorem c4_witness : reserveRun 7 3 none = [7, 8, 9] := by
  rw [c4_nonce_reservation_contiguous.2.2 7 3 (by norm_num [U256LIMIT])]
  decide

/-! ### C5: round-trip of the sealing primitive -/

/-- Unfolding step of `splitOnDot` on a cons cell. -/
theorem splitOnDot_cons (c : Char) (rest : Str) :
    splitOnDot (c :: rest) =
      if c = '.' then [] :: splitOnDot rest
      else consPart c (splitOnDot rest) := rfl

/-- `splitOnDot` never returns the empty list. -/
theorem splitOnDot_ne_nil (s : Str) : splitOnDot s ≠ [] := by
  cases s with
  | nil => simp [splitOnDot]
  | cons c rest =>
    rw [splitOnDot_cons]
    by_cases h : c = '.'
    · simp [h]
    · rw [if_neg h]
      unfold consPart
      cases splitOnDot rest <;> simp

/-- Splitting a dot-free string yields that single part. -/
theorem splitOnDot_no_dot : ∀ s : Str, '.' ∉ s → splitOnDot s = [s] := by
  intro s
  induction s with
  | nil => intro _; rfl
  | cons c rest ih =>
    intro h
    have hc : c ≠ '.' := fun hc => h (hc ▸ List.mem_cons_self c rest)
    have hrest : '.' ∉ rest := fun hr => h (List.mem_cons_of_mem c hr)
    rw [splitOnDot_cons, if_neg hc, ih hrest]
    rfl

/-- Splitting `a ++ "." ++ b` with `a` dot-free peels off `a`. -/
theorem splitOnDot_append : ∀ (a b : Str), '.' ∉ a →
    splitOnDot (a ++ '.' :: b) = a :: splitOnDot b := by
  intro a
  induction a with
  | nil => intro b _; simp [splitOnDot]
  | cons c a' ih =>
    intro b h
    have hc : c ≠ '.' := fun hc => h (hc ▸ List.mem_cons_self c a')
    have ha' : '.' ∉ a' := fun hr => h (List.mem_cons_of_mem c hr)
    show splitOnDot (c :: (a' ++ '.' :: b)) = (c :: a') :: splitOnDot b
    rw [splitOnDot_cons, if_neg hc, ih b ha']
    rfl

/-- Claim C5: for every instantiation of the external primitives
satisfying the crates' contracts — AES-GCM decryption inverts
encryption under the same key and nonce, base64 decoding inverts
encoding and produces no `.`, UTF-8 decoding inverts encoding, a
generated salt string re-parses to itself, the generated nonce is 12
bytes — opening a sealed envelope with the sealing passphrase returns
the original plaintext:
`decrypt_private_key(encrypt_private_key(X, P), P) = Ok(X)`. -/
theorem c5_seal_open_roundtrip (prim : CryptoPrim) (salt : Str)
    (nonce : Bytes) (X P : Str) (key : Bytes) (sealed : Str)
    (hkdf : prim.kdf P salt = some key)
    (haead : ∀ n m, prim.aeadDecrypt key n (prim.aeadEncrypt key n m) =
      some m)
    (hb64 : ∀ b, prim.b64Decode (prim.b64Encode b) = some b)
    (hdot : ∀ b, '.' ∉ prim.b64Encode b)
    (hutf8 : ∀ t, prim.utf8Decode (prim.utf8Encode t) = some t)
    (hsalt : prim.saltFromB64 salt = some salt)
    (hnonce : nonce.length = 12)
    (henc : encryption_encrypt_private_key prim salt nonce X P =
      .ok sealed) :
    encryption_decrypt_private_key prim sealed P = .ok X := by
  have hsealed : sealed = prim.b64Encode (prim.utf8Encode salt) ++
      '.' :: prim.b64Encode (encryptionKeyEncrypt prim key nonce X) := by
    unfold encryption_encrypt_private_key at henc
    rw [hkdf] at henc
    exact (Except.ok.inj henc).symm
  subst hsealed
  unfold encryption_decrypt_private_key
  rw [splitOnDot_append _ _ (hdot _), splitOnDot_no_dot _ (hdot _)]
  simp only [hb64, hutf8, hsalt, hkdf]
  unfold encryptionKeyDecrypt encryptionKeyEncrypt
  have hlen : ¬ (nonce ++
      prim.aeadEncrypt key nonce (prim.utf8Encode X)).length < 12 := by
    rw [List.length_append, hnonce]
    omega
  rw [if_neg hlen, List.take_left' hnonce, List.drop_left' hnonce]
  simp only [haead, hutf8]

/-! Witness instantiation of the primitives: a trivially correct
AEAD, a unary byte codec over the dot-free alphabet `a`/`b`, and
character-code UTF-8. -/

/-- Witness byte-string encoder: each byte `n` becomes `n` letters `b`
followed by a terminating `a`. -/
def wEnc : Bytes → Str
  | [] => []
  | n :: ns => List.replicate n 'b' ++ 'a' :: wEnc ns

/-- Helper for `wDec`: increments the first decoded byte. -/
def wBump : Bytes → Option Bytes
  | n :: ns => some ((n + 1) :: ns)
  | [] => none

/-- Decoder inverting `wEnc`. -/
def wDec : Str → Option Bytes
  | [] => some []
  | 'a' :: rest => (wDec rest).map (fun ns => 0 :: ns)
  | 'b' :: rest => (wDec rest).bind wBump
  | _ => none

/-- Unfolding step of `wDec` at a leading `b`. -/
theorem wDec_cons_b (s : Str) : wDec ('b' :: s) = (wDec s).bind wBump := rfl

/-- `wDec` consumes one unary run. -/
theorem wDec_replicate (rest : Str) : ∀ n : Nat,
    wDec (List.replicate n 'b' ++ 'a' :: rest) =
      (wDec rest).map (fun ns => n :: ns) := by
  intro n
  induction n with
  | zero => rfl
  | succ n ih =>
    show wDec ('b' :: (List.replicate n 'b' ++ 'a' :: rest)) = _
    rw [wDec_cons_b, ih]
    cases wDec rest <;> rfl

/-- `wDec` inverts `wEnc`. -/
theorem wDec_wEnc : ∀ bs : Bytes, wDec (wEnc bs) = some bs := by
  intro bs
  induction bs with
  | nil => rfl
  | cons n ns ih =>
    show wDec (List.replicate n 'b' ++ 'a' :: wEnc ns) = _
    rw [wDec_replicate, ih]
    rfl

/-- `wEnc` emits only the letters `a` and `b`. -/
theorem wEnc_no_dot : ∀ bs : Bytes, '.' ∉ wEnc bs := by
  intro bs
  induction bs with
  | nil => simp [wEnc]
  | cons n ns ih =>
    intro h
    rcases List.mem_append.mp h with h1 | h2
    · exact absurd (List.eq_of_mem_replicate h1) (by decide)
    · rcases List.mem_cons.mp h2 with h3 | h4
      · exact absurd h3 (by decide)
      · exact ih h4

/-- Witness primitives for C5. -/
def wPrim : CryptoPrim where
  kdf := fun _ _ => some []
  aeadEncrypt := fun _ _ m => m
  aeadDecrypt := fun _ _ c => some c
  b64Encode := wEnc
  b64Decode := wDec
  utf8Encode := fun t => t.map Char.toNat
  utf8Decode := fun b => some (b.map Char.ofNat)
  saltFromB64 := fun s => some s

/-- Witness plaintext, passphrase, salt, nonce and the sealed envelope
they produce. -/
def wX : Str := ['k']
def wP : Str := ['p']
def wSalt : Str := ['s']
def wNonce : Bytes := List.replicate 12 0
def wSealed : Str :=
  wEnc (wSalt.map Char.toNat) ++ '.' :: wEnc (wNonce ++ wX.map Char.toNat)

/-- Witness for C5: opening the concrete sealed envelope recovers the
plaintext. -/
theorem c5_witness :
    encryption_decrypt_private_key wPrim wSealed wP = .ok wX :=
  c5_seal_open_roundtrip wPrim wSalt wNonce wX wP [] wSealed
    rfl (fun _ _ => rfl) wDec_wEnc wEnc_no_dot
    (fun t => by
      show some ((t.map Char.toNat).map Char.ofNat) = some t
      rw [List.map_map]
      congr 1
      exact List.map_congr_left (fun c _ => Char.ofNat_toNat c) ▸
        (by simp [Char.ofNat_toNat]))
    rfl rfl rfl

/-! ### Association-list lemmas -/

/-- Lookup steps through a cons cell. -/
theorem alistLookup_cons {α : Type} (p : Str × α) (t : List (Str × α))
    (k : Str) :
    alistLookup (p :: t) k =
      if p.1 == k then some p.2 else alistLookup t k := by
  unfold alistLookup
  rw [List.find?_cons]
  by_cases h : p.1 == k <;> simp [h]

/-- Membership steps through a cons cell. -/
theorem alistContains_cons {α : Type} (p : Str × α) (t : List (Str × α))
    (k : Str) :
    alistContains (p :: t) k = ((p.1 == k) || alistContains t k) := by
  unfold alistContains
  rw [alistLookup_cons]
  by_cases h : p.1 == k <;> simp [h]

/-- Appending a fresh binding makes it visible. -/
theorem alistLookup_append_single {α : Type} (k : Str) (v : α) :
    ∀ l : List (Str × α), alistContains l k = false →
      alistLookup (l ++ [(k, v)]) k = some v := by
  intro l
  induction l with
  | nil =>
    intro _
    simp [alistLookup, List.find?]
  | cons p t ih =>
    intro h
    rw [alistContains_cons] at h
    have hp : (p.1 == k) = false := by
      cases hb : p.1 == k
      · rfl
      · rw [hb] at h; simp at h
    have ht : alistContains t k = false := by
      rw [hp] at h; simpa using h
    show alistLookup (p :: (t ++ [(k, v)])) k = some v
    rw [alistLookup_cons, if_neg (by simp [hp]), ih ht]

/-- Replacing an existing binding makes the new value visible. -/
theorem alistLookup_mapReplace {α : Type} (k : Str) (v : α) :
    ∀ l : List (Str × α), alistContains l k = true →
      alistLookup (l.map (fun p => if p.1 == k then (k, v) else p)) k =
        some v := by
  intro l
  induction l with
  | nil => intro h; simp [alistContains, alistLookup, List.find?] at h
  | cons p t ih =>
    intro h
    rw [alistContains_cons] at h
    by_cases hp : p.1 == k
    · rw [List.map_cons, if_pos hp, alistLookup_cons,
        if_pos (by simp)]
    · rw [List.map_cons, if_neg hp, alistLookup_cons, if_neg hp]
      apply ih
      rw [show (p.1 == k) = false from by simpa using hp] at h
      simpa using h

/-- Inserting a binding makes it visible, fresh or not. -/
theorem alistLookup_insert_self {α : Type} (l : List (Str × α)) (k : Str)
    (v : α) : alistLookup (alistInsert l k v) k = some v := by
  unfold alistInsert
  by_cases h : alistContains l k
  · rw [if_pos h]
    exact alistLookup_mapReplace k v l h
  · rw [if_neg h]
    exact alistLookup_append_single k v l (by simpa using h)

/-- Insertion under a different key does not change a lookup. -/
theorem alistLookup_insert_ne {α : Type} (k' k : Str) (v : α)
    (hne : k' ≠ k) : ∀ l : List (Str × α),
      alistLookup (alistInsert l k' v) k = alistLookup l k := by
  have hb : (k' == k) = false := by simpa using hne
  intro l
  unfold alistInsert
  by_cases h : alistContains l k'
  · rw [if_pos h]
    clear h
    induction l with
    | nil => rfl
    | cons p t ih =>
      rw [List.map_cons, alistLookup_cons]
      by_cases hp : p.1 == k'
      · have hpk : (p.1 == k) = false := by
          have : p.1 = k' := by simpa using hp
          simp [this, hne]
        rw [if_pos hp, alistLookup_cons, if_neg (by simp [hb]),
          if_neg (by simp [hpk]), ih]
      · rw [if_neg hp, alistLookup_cons, ih]
  · rw [if_neg h]
    clear h
    induction l with
    | nil =>
      show alistLookup [(k', v)] k = alistLookup [] k
      rw [alistLookup_cons, if_neg (by simp [hb])]
    | cons p t ih =>
      show alistLookup (p :: (t ++ [(k', v)])) k = alistLookup (p :: t) k
      rw [alistLookup_cons, alistLookup_cons, ih]

/-- A key absent from the key list is not contained. -/
theorem alistContains_of_not_mem_keys {α : Type} (k : Str) :
    ∀ l : List (Str × α), k ∉ l.map Prod.fst →
      alistContains l k = false := by
  intro l
  induction l with
  | nil => intro _; rfl
  | cons p t ih =>
    intro h
    rw [alistContains_cons]
    have h1 : p.1 ≠ k := fun he => h (by
      rw [List.map_cons, ← he]
      exact List.mem_cons_self _ _)
    have h2 : k ∉ t.map Prod.fst := fun hm => h (by
      rw [List.map_cons]
      exact List.mem_cons_of_mem _ hm)
    simp [ih h2, h1]

/-- Erasing a key from a duplicate-free association list removes it. -/
theorem alistContains_erase {α : Type} (k : Str) :
    ∀ l : List (Str × α), (l.map Prod.fst).Nodup →
      alistContains (alistErase l k) k = false := by
  intro l
  induction l with
  | nil => intro _; rfl
  | cons p t ih =>
    intro hnodup
    rw [List.map_cons, List.nodup_cons] at hnodup
    unfold alistErase
    rw [List.eraseP_cons]
    by_cases hp : p.1 == k
    · rw [hp]
      have hpk : p.1 = k := by simpa using hp
      simpa using alistContains_of_not_mem_keys k t (hpk ▸ hnodup.1)
    · have hp' : (p.1 == k) = false := by simpa using hp
      rw [hp']
      have ht := ih hnodup.2
      unfold alistErase at ht
      simp [alistContains_cons, ht, hp']

/-! ### C7 and C10: master-verifier gating -/

/-- Claim C7: on a vault whose master verifier is set from passphrase
`P`, any `P' ≠ P` is rejected — under the idealization that the
verifier hash is collision-free (injective), which is how the spec
treats SHA-256 — so `get_private_key` (unlock) fails with the
invalid-master-password error for every name, and `add_wallet` fails
the same way regardless of the name. -/
theorem c7_wrong_passphrase_rejected (hash : Str → Str)
    (s : WalletStorage) (P Pbad : Str)
    (hinj : ∀ a b : Str, hash a = hash b → a = b)
    (hset : s.master_password_hash = hash P)
    (hne : s.master_password_hash ≠ [])
    (hP : Pbad ≠ P) :
    (∀ name : Str, get_private_key hash s name Pbad =
      .error ("Invalid master password".toList)) ∧
    (∀ (now : Nat) (name K addr : Str),
      add_wallet hash now s name K addr Pbad =
        .error ("Invalid master password".toList)) := by
  have hvf : verify_master_password hash s Pbad = false := by
    unfold verify_master_password
    have hneq : s.master_password_hash ≠ hash Pbad := by
      rw [hset]
      intro h
      exact hP (hinj Pbad P h.symm)
    have hb : (s.master_password_hash == hash Pbad) = false := by
      simpa using hneq
    rw [hb]
    simp
  have hnemp : s.master_password_hash.isEmpty = false := by
    simpa [List.isEmpty_iff] using hne
  have hgate : ((!s.master_password_hash.isEmpty) &&
      (!verify_master_password hash s Pbad)) = true := by
    rw [hvf, hnemp]
    rfl
  constructor
  · intro name
    unfold get_private_key
    rw [hgate]
    rfl
  · intro now name K addr
    unfold add_wallet
    rw [hgate]
    rfl

/-- Witness for C7: on the concrete vault sealed under
`password123`, unlocking wallet `w` with `wrongpass` is rejected. -/
theorem c7_witness :
    get_private_key exHash exVault ['w'] "wrongpass".toList =
      .error ("Invalid master password".toList) :=
  (c7_wrong_passphrase_rejected exHash exVault exPw "wrongpass".toList
    (fun _ _ h => h) rfl (by decide) (by decide)).1 ['w']

/-- A vault whose master password hash was never set. -/
def exNoPwVault : WalletStorage := ⟨[], [], ['p'], 0, 0⟩

/-- Claim C10: on a vault whose `master_password_hash` is empty,
`verify_master_password` rejects every candidate passphrase, so
`remove_wallet` and `decrypt_private_key` fail with the
invalid-master-password error for every passphrase and
`get_private_key` never succeeds, while `add_wallet` skips the
verification gate and succeeds for any passphrase on otherwise valid
inputs. -/
theorem c10_empty_verifier (hash : Str → Str) (s : WalletStorage)
    (hempty : s.master_password_hash = []) :
    (∀ pw : Str, verify_master_password hash s pw = false) ∧
    (∀ (now : Nat) (disk : DiskDoc) (name pw : Str),
      remove_wallet hash now s disk name pw =
        .error ("Invalid master password".toList)) ∧
    (∀ enc pw : Str, storage_decrypt_private_key hash s enc pw =
      .error ("Invalid master password".toList)) ∧
    (∀ name pw : Str, exceptIsOk (get_private_key hash s name pw) =
      false) ∧
    (∀ (now : Nat) (name K addr pw : Str) (bs : Bytes),
      isBlank name = false → alistContains s.wallets name = false →
      hexDecode (trimStartMatches0x K) = some bs →
      "0x".toList.isPrefixOf addr = true → addr.length = 42 →
      exceptIsOk (add_wallet hash now s name K addr pw) = true) := by
  have hvf : ∀ pw, verify_master_password hash s pw = false := by
    intro pw
    unfold verify_master_password
    rw [hempty]
    rfl
  have hgate : ∀ pw, ((!s.master_password_hash.isEmpty) &&
      (!verify_master_password hash s pw)) = false := by
    intro pw
    rw [hempty]
    rfl
  refine ⟨hvf, ?_, ?_, ?_, ?_⟩
  · intro now disk name pw
    unfold remove_wallet
    rw [hvf pw]
    rfl
  · intro enc pw
    unfold storage_decrypt_private_key
    rw [hvf pw]
    rfl
  · intro name pw
    unfold get_private_key
    rw [hgate pw, if_neg (by decide : ¬ (false = true))]
    cases hl : alistLookup s.wallets name with
    | none => rfl
    | some w =>
      unfold storage_decrypt_private_key
      rw [hvf pw]
      rfl
  · intro now name K addr pw bs h1 h2 h3 h4 h5
    unfold add_wallet
    rw [hgate pw, if_neg (by decide : ¬ (false = true)), h1,
      if_neg (by decide : ¬ (false = true)), h2,
      if_neg (by decide : ¬ (false = true))]
    dsimp only
    rw [h3, h4]
    rw [show (addr.length == 42) = true from by rw [h5]; rfl]
    rfl

/-- Witness for C10: on a concrete vault with no verifier set, every
gated operation fails for the candidate passphrase while adding a
wallet succeeds with it. -/
theorem c10_witness :
    verify_master_password exHash exNoPwVault exPw = false ∧
    remove_wallet exHash 1 exNoPwVault ⟨[], []⟩ ['w'] exPw =
      .error ("Invalid master password".toList) ∧
    exceptIsOk (get_private_key exHash exNoPwVault ['w'] exPw) = false ∧
    exceptIsOk (add_wallet exHash 1 exNoPwVault "alice".toList exRawKey
      exAddr exPw) = true := by
  have h := c10_empty_verifier exHash exNoPwVault rfl
  exact ⟨h.1 exPw, h.2.1 1 ⟨[], []⟩ ['w'] exPw, h.2.2.2.1 ['w'] exPw,
    h.2.2.2.2 1 "alice".toList exRawKey exAddr exPw
      (List.replicate 32 17) (by decide) (by decide) (by decide)
      (by decide) (by decide)⟩

/-! ### C6: add followed by unlock -/

/-- The verifier only reads the master-password hash, which the
record-map and timestamp updates leave unchanged. -/
theorem verify_update (hash : Str → Str) (s : WalletStorage)
    (w : List (Str × StoredWallet)) (u : Nat) (pw : Str) :
    verify_master_password hash
      { s with wallets := w, updated_at := u } pw =
      verify_master_password hash s pw := rfl

/-- When the passphrase verifies, `get_private_key` reduces to lookup
plus decrypt. -/
theorem get_private_key_gate_pass (hash : Str → Str)
    (s2 : WalletStorage) (N P : Str)
    (hv : verify_master_password hash s2 P = true) :
    get_private_key hash s2 N P =
      (match alistLookup s2.wallets N with
      | none => .error ("Wallet '".toList ++ N ++ "' not found".toList)
      | some w =>
        storage_decrypt_private_key hash s2 w.encrypted_private_key P) := by
  unfold get_private_key
  rw [show ((!s2.master_password_hash.isEmpty) &&
      (!verify_master_password hash s2 P)) = false from by
    rw [hv]; simp]
  rw [if_neg (by decide : ¬ (false = true))]

/-- When the passphrase verifies, decryption returns the stored
string. -/
theorem storage_decrypt_gate_pass (hash : Str → Str)
    (s2 : WalletStorage) (ek P : Str)
    (hv : verify_master_password hash s2 P = true) :
    storage_decrypt_private_key hash s2 ek P = .ok ek := by
  unfold storage_decrypt_private_key
  rw [hv, if_neg (by decide : ¬ (true = false))]

/-- Claim C6: on a vault state whose verifier matches `P`, adding a
fresh name `N` with a raw hex key `K` (no `0x` prefix) and its
lowercase address succeeds, and for the resulting state, unlocking `N`
with `P` returns exactly `K` while the stored metadata for `N` carries
that address. -/
theorem c6_add_then_unlock (hash : Str → Str) (now : Nat)
    (s : WalletStorage) (N K addr P : Str) (bs : Bytes)
    (hver : verify_master_password hash s P = true)
    (hname : isBlank N = false)
    (hfresh : alistContains s.wallets N = false)
    (hkey : hexDecode K = some bs)
    (hK0x : trimStartMatches0x K = K)
    (haddr1 : "0x".toList.isPrefixOf addr = true)
    (haddr2 : addr.length = 42)
    (hlower : strToLower addr = addr) :
    ∀ r : WalletStorage × DiskDoc,
      add_wallet hash now s N K addr P = .ok r →
        get_private_key hash r.1 N P = .ok K ∧
        (alistLookup r.1.wallets N).map (fun w => w.public_address) =
          some addr := by
  have hgate : ((!s.master_password_hash.isEmpty) &&
      (!verify_master_password hash s P)) = false := by
    rw [hver]
    simp
  have hres : add_wallet hash now s N K addr P =
      .ok (WalletStorage.mk
          (alistInsert s.wallets N (StoredWallet.mk N K addr now))
          s.master_password_hash s.storage_path s.created_at now,
        DiskDoc.mk
          (alistInsert s.wallets N (StoredWallet.mk N K addr now))
          s.master_password_hash) := by
    unfold add_wallet
    rw [hgate, if_neg (by decide : ¬ (false = true)), hname,
      if_neg (by decide : ¬ (false = true)), hfresh,
      if_neg (by decide : ¬ (false = true))]
    dsimp only
    rw [hK0x, hkey, haddr1]
    rw [show (addr.length == 42) = true from by rw [haddr2]; rfl]
    rw [hlower]
    rfl
  intro r hr
  rw [hres] at hr
  have hr' := Except.ok.inj hr
  subst hr'
  have hv2 : verify_master_password hash
      (WalletStorage.mk
        (alistInsert s.wallets N (StoredWallet.mk N K addr now))
        s.master_password_hash s.storage_path s.created_at now) P =
      true := hver
  have hlook : alistLookup
      (alistInsert s.wallets N (StoredWallet.mk N K addr now)) N =
      some (StoredWallet.mk N K addr now) :=
    alistLookup_insert_self _ _ _
  constructor
  · rw [get_private_key_gate_pass hash _ N P hv2]
    dsimp only
    rw [hlook]
    exact storage_decrypt_gate_pass hash _ K P hv2
  · dsimp only
    rw [hlook]
    rfl

/-- The vault state produced by the concrete C6 addition. -/
def c6ResultState : WalletStorage :=
  ⟨[("alice".toList, ⟨"alice".toList, exRawKey, exAddr, 3⟩)],
    exPw, ['p'], 0, 3⟩

/-- The on-disk document produced by the concrete C6 addition. -/
def c6ResultDisk : DiskDoc := ⟨c6ResultState.wallets, exPw⟩

/-- Witness for C6: concretely adding wallet `alice` with the raw key
`11…1` to an empty sealed vault, then unlocking it, returns the key
and the registered address. -/
theorem c6_witness :
    get_private_key exHash c6ResultState "alice".toList exPw =
      .ok exRawKey ∧
    (alistLookup c6ResultState.wallets "alice".toList).map
      (fun w => w.public_address) = some exAddr :=
  c6_add_then_unlock exHash 3 exEmptyVault "alice".toList exRawKey
    exAddr exPw (List.replicate 32 17) (by decide) (by decide)
    (by decide) (by decide) (by decide) (by decide) (by decide)
    (by decide) (c6ResultState, c6ResultDisk) (by decide)

/-! ### C2, C3, C8: amended statements -/

/-- Claim C2 (amended): a `remove_wallet` call with the correct
passphrase on a present name succeeds with `true` and deletes the
record from the in-memory map, but performs no save: the on-disk
document is returned unchanged, so the removal is only persisted by a
later explicit save. -/
theorem c2_remove_leaves_disk_unchanged (hash : Str → Str) (now : Nat)
    (s : WalletStorage) (disk : DiskDoc) (name pw : Str)
    (hver : verify_master_password hash s pw = true)
    (hmem : alistContains s.wallets name = true)
    (hnodup : (s.wallets.map Prod.fst).Nodup) :
    (remove_wallet hash now s disk name pw).map (fun r => r.1) =
      .ok true ∧
    (remove_wallet hash now s disk name pw).map
      (fun r => alistContains r.2.1.wallets name) = .ok false ∧
    (remove_wallet hash now s disk name pw).map (fun r => r.2.2) =
      .ok disk := by
  have hres : remove_wallet hash now s disk name pw =
      .ok (true, WalletStorage.mk (alistErase s.wallets name)
        s.master_password_hash s.storage_path s.created_at now,
        disk) := by
    unfold remove_wallet
    rw [hver, if_neg (by decide : ¬ (true = false)), hmem,
      if_pos (rfl : true = true)]
  rw [hres]
  refine ⟨rfl, ?_, rfl⟩
  show Except.ok (alistContains (alistErase s.wallets name) name) =
    Except.ok false
  rw [alistContains_erase name s.wallets hnodup]

/-- Witness for C2 (amended): removing wallet `w` from the concrete
vault succeeds, drops it from memory, and hands back the unchanged
disk document. -/
theorem c2_witness :
    (remove_wallet exHash 1 exVault exDisk ['w'] exPw).map
      (fun r => r.1) = .ok true ∧
    (remove_wallet exHash 1 exVault exDisk ['w'] exPw).map
      (fun r => alistContains r.2.1.wallets ['w']) = .ok false ∧
    (remove_wallet exHash 1 exVault exDisk ['w'] exPw).map
      (fun r => r.2.2) = .ok exDisk :=
  c2_remove_leaves_disk_unchanged exHash 1 exVault exDisk ['w'] exPw
    (by decide) (by decide) (by decide)

/-- Claim C3 (amended): `transfer_from_wallet` invokes the vault
unlock (`get_private_key`) on every request before validating
anything; once the unlock has succeeded, a wrong-length `to` address
is rejected as `INVALID_PARAMS`, while an unknown chain id is only
rejected inside `send_transaction` as `INTERNAL_ERROR` — in both
cases after the decrypted key was already obtained. -/
theorem c3_badinput_after_unlock (hash : Str → Str)
    (providers : List (Str × Str)) (s : WalletStorage)
    (wn cid toA amt pw : Str) :
    (transfer_from_wallet hash providers s wn cid toA amt
      pw).unlockInvoked = true ∧
    (∀ pk : Str, get_private_key hash s wn pw = .ok pk →
      validEthAddress toA = false →
      (transfer_from_wallet hash providers s wn cid toA amt pw).result =
        .error (.invalidParams ("Invalid 'to_address'".toList))) ∧
    (∀ pk : Str, get_private_key hash s wn pw = .ok pk →
      validEthAddress toA = true → validDecU256 amt = true →
      validLocalWallet pk = true → alistLookup providers cid = none →
      (transfer_from_wallet hash providers s wn cid toA amt pw).result =
        .error (.internalError
          ("No provider available for chain: ".toList ++ cid))) := by
  refine ⟨?_, ?_, ?_⟩
  · unfold transfer_from_wallet
    cases hg : get_private_key hash s wn pw with
    | error e => rfl
    | ok pk =>
      dsimp only
      split_ifs <;> try rfl
      cases alistLookup providers cid <;> rfl
  · intro pk hg h1
    unfold transfer_from_wallet
    rw [hg]
    dsimp only
    rw [h1, if_pos (rfl : false = false)]
  · intro pk hg h1 h2 h3 h4
    unfold transfer_from_wallet
    rw [hg]
    dsimp only
    rw [h1, if_neg (by decide : ¬ (true = false)), h2,
      if_neg (by decide : ¬ (true = false)), h3,
      if_neg (by decide : ¬ (true = false)), h4]

/-- Witness for C3 (amended): on the concrete vault, a transfer to the
short address `0x1234` is rejected as invalid parameters after the
unlock already ran, and a transfer on the unknown chain `2` fails with
the internal no-provider error after the unlock already ran. -/
theorem c3_witness :
    (transfer_from_wallet exHash exProviders exVault ['w'] ['1']
      "0x1234".toList ['1'] exPw).unlockInvoked = true ∧
    (transfer_from_wallet exHash exProviders exVault ['w'] ['1']
      "0x1234".toList ['1'] exPw).result =
      .error (.invalidParams ("Invalid 'to_address'".toList)) ∧
    (transfer_from_wallet exHash exProviders exVault ['w'] ['2']
      exAddr ['1'] exPw).result =
      .error (.internalError
        ("No provider available for chain: ".toList ++ ['2'])) := by
  refine ⟨(c3_badinput_after_unlock exHash exProviders exVault ['w']
      ['1'] "0x1234".toList ['1'] exPw).1, ?_, ?_⟩
  · exact (c3_badinput_after_unlock exHash exProviders exVault ['w']
      ['1'] "0x1234".toList ['1'] exPw).2.1 exRawKey (by decide)
      (by decide)
  · exact (c3_badinput_after_unlock exHash exProviders exVault ['w']
      ['2'] exAddr ['1'] exPw).2.2 exRawKey (by decide) (by decide)
      (by decide) (by decide) (by decide)

/-- Running a trace of filesystem operations to completion. -/
def runFs (fs : FileSys) (ops : List FsOp) : FileSys :=
  ops.foldl applyFsOp fs

/-- Claim C8 (amended): every save serializes and writes the full
document to the sibling temp file named by replacing the path's
extension with `tmp`, then renames it over the path — with no fsync
anywhere, and with a non-atomic copy-plus-remove fallback when the
rename fails.  In the crash-free filesystem model the success path
still presents a reader with either the old or the new document at
every intermediate point, and with the new document at the end. -/
theorem c8_save_protocol_actual (file_path : Str) (doc : DiskDoc)
    (renameFails : Bool) (fs : FileSys)
    (htmp : withExtension file_path "tmp".toList ≠ file_path) :
    (save_wallet_storage file_path doc renameFails).all
      (fun op => match op with | .fsync _ => false | _ => true) =
      true ∧
    save_wallet_storage file_path doc false =
      [FsOp.write (withExtension file_path "tmp".toList) doc,
        FsOp.rename (withExtension file_path "tmp".toList) file_path] ∧
    save_wallet_storage file_path doc true =
      [FsOp.write (withExtension file_path "tmp".toList) doc,
        FsOp.copy (withExtension file_path "tmp".toList) file_path,
        FsOp.removeFile (withExtension file_path "tmp".toList)] ∧
    (∀ st ∈ fsStates fs (save_wallet_storage file_path doc false),
      alistLookup st file_path = alistLookup fs file_path ∨
      alistLookup st file_path = some doc) ∧
    alistLookup (runFs fs (save_wallet_storage file_path doc false))
      file_path = some doc := by
  have h1 : alistLookup (applyFsOp fs
      (FsOp.write (withExtension file_path "tmp".toList) doc))
      file_path = alistLookup fs file_path := by
    show alistLookup (alistInsert fs _ doc) file_path = _
    exact alistLookup_insert_ne _ _ _ htmp fs
  have htl : alistLookup (applyFsOp fs
      (FsOp.write (withExtension file_path "tmp".toList) doc))
      (withExtension file_path "tmp".toList) = some doc := by
    show alistLookup (alistInsert fs _ doc) _ = _
    exact alistLookup_insert_self _ _ _
  have h2 : alistLookup (applyFsOp (applyFsOp fs
      (FsOp.write (withExtension file_path "tmp".toList) doc))
      (FsOp.rename (withExtension file_path "tmp".toList) file_path))
      file_path = some doc := by
    simp only [applyFsOp]
    rw [show alistLookup (alistInsert fs
        (withExtension file_path "tmp".toList) doc)
        (withExtension file_path "tmp".toList) = some doc from
      alistLookup_insert_self _ _ _]
    exact alistLookup_insert_self _ _ _
  refine ⟨by cases renameFails <;> rfl, rfl, rfl, ?_, h2⟩
  intro st hst
  have hmem : st ∈ [fs,
      applyFsOp fs
        (FsOp.write (withExtension file_path "tmp".toList) doc),
      applyFsOp (applyFsOp fs
        (FsOp.write (withExtension file_path "tmp".toList) doc))
        (FsOp.rename (withExtension file_path "tmp".toList)
          file_path)] := hst
  cases hmem with
  | head => exact Or.inl rfl
  | tail _ hm2 =>
    cases hm2 with
    | head => exact Or.inl h1
    | tail _ hm3 =>
      cases hm3 with
      | head => exact Or.inr h2
      | tail _ hm4 => cases hm4

/-- Witness for C8 (amended): concretely saving to `wallets.json` over
an empty filesystem leaves the new document readable at
`wallets.json`. -/
theorem c8_witness :
    alistLookup (runFs []
      (save_wallet_storage "wallets.json".toList exDisk false))
      "wallets.json".toList = some exDisk :=
  (c8_save_protocol_actual "wallets.json".toList exDisk false []
    (by decide)).2.2.2.2

end EvmMcp
